import Mathlib

/-!
Verification of the moreless-inventory-app inventory engine.

This file shallowly embeds the computational core of the repository:

* the Bundle Calculator and Multipack Reconciler
  (`app/utils/inventory-calculation.server.ts`, given here as
  `getVariantInventory`, `updateVariantInventory`,
  `calculateBundlesForVariant`, `calculateMultipackInventory`);
* the order-lifecycle webhook handlers
  (`webhooks.orders.paid` and `webhooks.orders.cancelled`), including
  line-item delta computation for the three rule shapes
  (deductionMappings, legacy multiplier, legacy variety_pack),
  consolidation, clamping, and the ProcessedOrder idempotency marker.

Remote calls (GraphQL lookups and writes) are modelled by an explicit
environment `Env` whose operations may fail (`Except String`), so that
the source's try/catch structure is reflected faithfully: every catch in
the TypeScript corresponds to an explicit `match` on the `Except` here.
The persistent store (ProcessedOrder markers) and the remote inventory
levels form the state `St` threaded through the handlers.
-/

namespace Moreless

/-- A deduction mapping `{targetVariantId, multiplier}` as stored in a
rule's `deductionMappings` JSON. -/
structure DeductionMapping where
  targetVariantId : String
  multiplier : Int
deriving DecidableEq, Repr

/-- A stored JSON text field, as the handlers see it after the
null-check and `JSON.parse`: `absent` models a null (or empty, hence
falsy) column, `malformed` a string on which `JSON.parse` throws, and
`parsed v` a successfully parsed value.  A value that parses but is not
a non-empty array behaves identically to `parsed []` in every consumer
(the `Array.isArray(x) && x.length > 0` guards), so it is represented
by `parsed []`. -/
inductive JsonField (α : Type) where
  | absent
  | malformed
  | parsed (val : α)
deriving DecidableEq, Repr

/-- Whether the column is non-null (the Prisma `not: null` filter). -/
def JsonField.isStored : JsonField α → Bool
  | .absent => false
  | _ => true

/-- A `VariantRule` row. -/
structure RuleRec where
  variantId : String
  type : String
  multiplier : Option Int
  varietyPackFlavorIds : JsonField (List String)
  deductionMappings : JsonField (List DeductionMapping)
  calculateInventoryForSelfMapping : Bool
deriving DecidableEq, Repr

/-- A location as returned by the locations query. -/
structure Loc where
  id : String
  isActive : Bool
  name : String
deriving DecidableEq, Repr

/-- The persistent / remote state visible to the handlers: the
ProcessedOrder markers (pairs of shop and orderId) and the available
inventory quantity per (inventoryItemId, locationId).  `inventory`
already incorporates the `... || 0` defaulting the code applies to a
missing inventory level, hence it is total. -/
structure St where
  processed : List (String × String)
  inventory : String → String → Int

/-- Point update of an inventory level. -/
def St.setInv (st : St) (itemId locId : String) (q : Int) : St :=
  { st with inventory := fun i l =>
      if i = itemId ∧ l = locId then q else st.inventory i l }

/-- The remote API as an oracle.  Each field corresponds to one GraphQL
round trip in the source; an `Except.error` models the call throwing
(network failure), which the source handles with try/catch. -/
structure Env where
  assignedLocation : Except String (Option String)
  shopLocations : Except String (List Loc)
  inventoryItemOf : String → Except String (Option String)
  levelReadOk : String → String → Bool
  writeUserErrors : String → String → Bool
  batchWrite : Except String Bool

/-! ## Bundle Calculator and Reconciler (inventory-calculation.server.ts) -/

/-- Embeds `getVariantInventory`: resolve the variant's inventory item,
then read the available quantity at the location; any failure (thrown
call, missing inventory item, failed level read) yields 0, matching the
function's internal try/catch and `|| 0` defaulting. -/
def getVariantInventory (env : Env) (st : St) (variantId locationId : String) : Int :=
  match env.inventoryItemOf variantId with
  | .error _ => 0
  | .ok none => 0
  | .ok (some itemId) =>
    if env.levelReadOk itemId locationId then st.inventory itemId locationId else 0

/-- Embeds `updateVariantInventory`: resolve the inventory item, read
the current quantity (the compare value), then submit
`Math.max(0, quantity)`.  Returns (success flag, submitted quantity if
a set mutation was issued, new state).  A write rejected with user
errors is submitted but not applied. -/
def updateVariantInventory (env : Env) (st : St) (variantId locationId : String)
    (quantity : Int) : Bool × Option Int × St :=
  match env.inventoryItemOf variantId with
  | .error _ => (false, none, st)
  | .ok none => (false, none, st)
  | .ok (some itemId) =>
    if env.levelReadOk itemId locationId then
      let submitted := max 0 quantity
      if env.writeUserErrors itemId locationId then
        (false, some submitted, st)
      else
        (true, some submitted, st.setInv itemId locationId submitted)
    else
      (false, none, st)

/-- Embeds `calculateBundlesForVariant`: for each mapping compute
`Math.floor(available / multiplier)` (floor division, `Int.fdiv`; the
data model guarantees integer multipliers ≥ 1, for which `Int.fdiv`
agrees with the source's float division plus `Math.floor`), then return
`Math.min(...bundleCounts)`, or 0 for an empty mapping list. -/
def calculateBundlesForVariant (env : Env) (st : St)
    (deductionMappings : List DeductionMapping) (locationId : String) : Int :=
  let bundleCounts := deductionMappings.map
    (fun m => Int.fdiv (getVariantInventory env st m.targetVariantId locationId) m.multiplier)
  match bundleCounts with
  | [] => 0
  | c :: cs => List.foldl min c cs

/-- The `deductionMappings.some(mapping => mapping.targetVariantId ===
rule.variantId)` check of the Reconciler. -/
def hasSelfMapping (r : RuleRec) : Bool :=
  match r.deductionMappings with
  | .parsed ms => ms.any (fun m => m.targetVariantId == r.variantId)
  | _ => false

/-- One log entry of the Reconciler: the rule's variant, the location,
the quantity submitted to the remote write (if a set mutation was
issued), and whether the update succeeded. -/
structure LogEntry where
  variantId : String
  locationId : String
  submitted : Option Int
  success : Bool
deriving DecidableEq, Repr

/-- The per-location loop of `calculateMultipackInventory` for one rule:
compute the bundle count and push it as the rule's variant inventory.
Nothing inside the loop body can throw (both helpers catch internally),
so the source's per-location try/catch has no further effect. -/
def reconLocs (env : Env) (ms : List DeductionMapping) (variantId : String) :
    List Loc → St → St × List LogEntry
  | [], st => (st, [])
  | loc :: rest, st =>
    let bundleCount := calculateBundlesForVariant env st ms loc.id
    let r := updateVariantInventory env st variantId loc.id bundleCount
    let next := reconLocs env ms variantId rest r.2.2
    (next.1, ⟨variantId, loc.id, r.2.1, r.1⟩ :: next.2)

/-- The per-rule body of `calculateMultipackInventory`: skip on a null,
unparseable, non-array or empty `deductionMappings`; skip on any
self-mapping; skip when the toggle is off; otherwise process every
active location. -/
def reconRule (env : Env) (active : List Loc) (r : RuleRec) (st : St) :
    St × List LogEntry :=
  match r.deductionMappings with
  | .absent => (st, [])
  | .malformed => (st, [])
  | .parsed ms =>
    if ms.isEmpty then (st, [])
    else if ms.any (fun m => m.targetVariantId == r.variantId) then (st, [])
    else if !r.calculateInventoryForSelfMapping then (st, [])
    else reconLocs env ms r.variantId active st

/-- The sequential rule loop of `calculateMultipackInventory`. -/
def reconRules (env : Env) (active : List Loc) :
    List RuleRec → St → St × List LogEntry
  | [], st => (st, [])
  | r :: rs, st =>
    let a := reconRule env active r st
    let b := reconRules env active rs a.1
    (b.1, a.2 ++ b.2)

/-- Embeds `calculateMultipackInventory`: load the shop's rules with a
non-null `deductionMappings`, return if none; list locations (a thrown
locations query is caught by the function's outer try/catch, leaving
the state untouched); keep the active ones, return if none; then run
the rule loop.  The function is total: no failure escapes it. -/
def calculateMultipackInventory (env : Env) (rules : List RuleRec) (st : St) :
    St × List LogEntry :=
  if (rules.filter (fun r => r.deductionMappings.isStored)).isEmpty then (st, [])
  else
    match env.shopLocations with
    | .error _ => (st, [])
    | .ok locs =>
      if (locs.filter (fun l => l.isActive)).isEmpty then (st, [])
      else
        reconRules env (locs.filter (fun l => l.isActive))
          (rules.filter (fun r => r.deductionMappings.isStored)) st

/-- Eligibility of a rule for automatic reconciliation, read off the
skip conditions of `calculateMultipackInventory`'s rule loop. -/
def RuleRec.eligible (r : RuleRec) : Bool :=
  match r.deductionMappings with
  | .parsed ms =>
    !ms.isEmpty && !(ms.any (fun m => m.targetVariantId == r.variantId))
      && r.calculateInventoryForSelfMapping
  | _ => false

/-! ## Order Adjustment Engine (webhooks.orders.paid / webhooks.orders.cancelled) -/

/-- One order line item from the webhook payload. -/
structure LineItem where
  variant_id : Nat
  quantity : Int
  variant_inventory_management : Option String
deriving DecidableEq, Repr

/-- The order webhook payload (the fields the handlers read). -/
structure OrderPayload where
  id : Option Nat
  admin_graphql_api_id : Option String
  line_items : Option (List LineItem)
  fulfillment_status : Option String
deriving DecidableEq, Repr

/-- Embeds `order.id?.toString() || order.admin_graphql_api_id?.split('/').pop() || ''`. -/
def orderIdOf (o : OrderPayload) : String :=
  match o.id with
  | some n => toString n
  | none =>
    match o.admin_graphql_api_id with
    | some s => (s.splitOn "/").getLastD ""
    | none => ""

/-- Embeds `gid://shopify/ProductVariant/` ++ the numeric variant id. -/
def gidOfVariant (n : Nat) : String :=
  "gid://shopify/ProductVariant/" ++ toString n

/-- Embeds `new Map(variantRules.map(rule => [rule.variantId, rule]))`
followed by `rulesMap.get`: with duplicate keys the last entry wins. -/
def rulesLookup (rules : List RuleRec) (variantId : String) : Option RuleRec :=
  rules.foldl (fun acc r => if r.variantId = variantId then some r else acc) none

/-- An in-memory inventory adjustment `{inventoryItemId, locationId, delta}`. -/
structure Adj where
  inventoryItemId : String
  locationId : String
  delta : Int
deriving DecidableEq, Repr

/-- Delta negation (the mirror between paid and cancelled processing). -/
def negAdj (a : Adj) : Adj :=
  ⟨a.inventoryItemId, a.locationId, -a.delta⟩

/-- The mapping loop of the paid handler's `deductionMappings` branch:
for each mapping, resolve the target variant's inventory item and push
`-(quantity * multiplier)`; an unresolved item skips just that mapping,
while a thrown lookup aborts the loop (the Boolean component is false),
leaving the adjustments pushed so far in place — in the source the
enclosing catch then falls back to the legacy interpretation. -/
def mappingAdjsPaid (env : Env) (locationId : String) (q : Int) :
    List DeductionMapping → List Adj × Bool
  | [] => ([], true)
  | m :: ms =>
    match env.inventoryItemOf m.targetVariantId with
    | .error _ => ([], false)
    | .ok none => mappingAdjsPaid env locationId q ms
    | .ok (some t) =>
      let r := mappingAdjsPaid env locationId q ms
      (⟨t, locationId, -(q * m.multiplier)⟩ :: r.1, r.2)

/-- The cancelled handler's mapping loop: pushes `+(quantity * multiplier)`. -/
def mappingAdjsCancelled (env : Env) (locationId : String) (q : Int) :
    List DeductionMapping → List Adj × Bool
  | [] => ([], true)
  | m :: ms =>
    match env.inventoryItemOf m.targetVariantId with
    | .error _ => ([], false)
    | .ok none => mappingAdjsCancelled env locationId q ms
    | .ok (some t) =>
      let r := mappingAdjsCancelled env locationId q ms
      (⟨t, locationId, q * m.multiplier⟩ :: r.1, r.2)

/-- The flavor loop of the paid handler's variety_pack branches: deduct
`quantity` from each resolvable flavor variant; a thrown lookup aborts
the loop (caught by the enclosing try, keeping prior pushes and
dropping the credit-back). -/
def flavorAdjsPaid (env : Env) (locationId : String) (q : Int) :
    List String → List Adj × Bool
  | [] => ([], true)
  | f :: fs =>
    match env.inventoryItemOf f with
    | .error _ => ([], false)
    | .ok none => flavorAdjsPaid env locationId q fs
    | .ok (some fi) =>
      let r := flavorAdjsPaid env locationId q fs
      (⟨fi, locationId, -q⟩ :: r.1, r.2)

/-- The cancelled handler's flavor loop: adds `quantity` back to each flavor. -/
def flavorAdjsCancelled (env : Env) (locationId : String) (q : Int) :
    List String → List Adj × Bool
  | [] => ([], true)
  | f :: fs =>
    match env.inventoryItemOf f with
    | .error _ => ([], false)
    | .ok none => flavorAdjsCancelled env locationId q fs
    | .ok (some fi) =>
      let r := flavorAdjsCancelled env locationId q fs
      (⟨fi, locationId, q⟩ :: r.1, r.2)

/-- Embeds `rule.multiplier || 3` (null and 0 are falsy). -/
def multOrDefault : Option Int → Int
  | none => 3
  | some m => if m = 0 then 3 else m

/-- The paid handler's legacy rule interpretation (identical text in
the catch-fallback and in the top-level else-if branches of the
source): `multiplier` deducts `quantity * (multiplier - 1)` from the
variant's own item; `variety_pack` deducts from each flavor and credits
the pack's own item back, with flavor-id parse failures (and thrown
flavor lookups) caught by the inner try, dropping the credit-back. -/
def legacyPaidAdjs (env : Env) (locationId : String) (rule : RuleRec)
    (inventoryItemId : String) (q : Int) : List Adj :=
  if rule.type = "multiplier" then
    [⟨inventoryItemId, locationId, -(q * (multOrDefault rule.multiplier - 1))⟩]
  else if rule.type = "variety_pack" then
    match rule.varietyPackFlavorIds with
    | .absent => []
    | .malformed => []
    | .parsed flavorIds =>
      let r := flavorAdjsPaid env locationId q flavorIds
      if r.2 then r.1 ++ [⟨inventoryItemId, locationId, q⟩] else r.1
  else []

/-- The cancelled handler's legacy interpretation: every delta negated. -/
def legacyCancelledAdjs (env : Env) (locationId : String) (rule : RuleRec)
    (inventoryItemId : String) (q : Int) : List Adj :=
  if rule.type = "multiplier" then
    [⟨inventoryItemId, locationId, q * (multOrDefault rule.multiplier - 1)⟩]
  else if rule.type = "variety_pack" then
    match rule.varietyPackFlavorIds with
    | .absent => []
    | .malformed => []
    | .parsed flavorIds =>
      let r := flavorAdjsCancelled env locationId q flavorIds
      if r.2 then r.1 ++ [⟨inventoryItemId, locationId, -q⟩] else r.1
  else []

/-- The paid handler's per-rule dispatch: a parsed non-empty
`deductionMappings` deducts from the mapped targets and credits the
ordered variant's own item back (`+quantity`); if the mapping loop
throws mid-way, the catch falls back to the legacy interpretation on
top of the partial pushes; a malformed or absent field goes straight to
the legacy branches; a parsed-but-empty array produces nothing. -/
def adjsForRulePaid (env : Env) (locationId : String) (rule : RuleRec)
    (inventoryItemId : String) (q : Int) : List Adj :=
  match rule.deductionMappings with
  | .parsed ms =>
    if ms.isEmpty then []
    else
      let r := mappingAdjsPaid env locationId q ms
      if r.2 then r.1 ++ [⟨inventoryItemId, locationId, q⟩]
      else r.1 ++ legacyPaidAdjs env locationId rule inventoryItemId q
  | .malformed => legacyPaidAdjs env locationId rule inventoryItemId q
  | .absent => legacyPaidAdjs env locationId rule inventoryItemId q

/-- The cancelled handler's per-rule dispatch: the same structure with
every delta negated. -/
def adjsForRuleCancelled (env : Env) (locationId : String) (rule : RuleRec)
    (inventoryItemId : String) (q : Int) : List Adj :=
  match rule.deductionMappings with
  | .parsed ms =>
    if ms.isEmpty then []
    else
      let r := mappingAdjsCancelled env locationId q ms
      if r.2 then r.1 ++ [⟨inventoryItemId, locationId, -q⟩]
      else r.1 ++ legacyCancelledAdjs env locationId rule inventoryItemId q
  | .malformed => legacyCancelledAdjs env locationId rule inventoryItemId q
  | .absent => legacyCancelledAdjs env locationId rule inventoryItemId q

/-- One line item of the paid handler's loop: skip items whose
inventory is not Shopify-managed or that have no rule; resolve the
ordered variant's inventory item (`none` result = the lookup threw,
aborting the whole handler; an unresolved item skips the line item). -/
def processItemPaid (env : Env) (locationId : String)
    (rules : List RuleRec) (it : LineItem) : Option (List Adj) :=
  if it.variant_inventory_management ≠ some "shopify" then some []
  else
    match rulesLookup rules (gidOfVariant it.variant_id) with
    | none => some []
    | some rule =>
      match env.inventoryItemOf (gidOfVariant it.variant_id) with
      | .error _ => none
      | .ok none => some []
      | .ok (some inventoryItemId) =>
        some (adjsForRulePaid env locationId rule inventoryItemId it.quantity)

/-- One line item of the cancelled handler's loop. -/
def processItemCancelled (env : Env) (locationId : String)
    (rules : List RuleRec) (it : LineItem) : Option (List Adj) :=
  if it.variant_inventory_management ≠ some "shopify" then some []
  else
    match rulesLookup rules (gidOfVariant it.variant_id) with
    | none => some []
    | some rule =>
      match env.inventoryItemOf (gidOfVariant it.variant_id) with
      | .error _ => none
      | .ok none => some []
      | .ok (some inventoryItemId) =>
        some (adjsForRuleCancelled env locationId rule inventoryItemId it.quantity)

/-- The paid handler's full line-item loop; `none` = a lookup threw and
the handler aborted to its top-level catch before any write. -/
def itemsAdjsPaid (env : Env) (locationId : String) (rules : List RuleRec) :
    List LineItem → Option (List Adj)
  | [] => some []
  | it :: rest =>
    match processItemPaid env locationId rules it with
    | none => none
    | some a =>
      match itemsAdjsPaid env locationId rules rest with
      | none => none
      | some b => some (a ++ b)

/-- The cancelled handler's full line-item loop. -/
def itemsAdjsCancelled (env : Env) (locationId : String) (rules : List RuleRec) :
    List LineItem → Option (List Adj)
  | [] => some []
  | it :: rest =>
    match processItemCancelled env locationId rules it with
    | none => none
    | some a =>
      match itemsAdjsCancelled env locationId rules rest with
      | none => none
      | some b => some (a ++ b)

/-! ## Consolidation and the compare-and-set batch -/

/-- The consolidation key: the source keys its `Map` by the literal
string `inventoryItemId + ":" + locationId`. -/
def keyOf (a : Adj) : String :=
  a.inventoryItemId ++ ":" ++ a.locationId

/-- One step of the consolidation loop: add the delta into the existing
entry with the same key, or append a copy of the adjustment. -/
def addAdj (acc : List Adj) (a : Adj) : List Adj :=
  if acc.any (fun b => keyOf b == keyOf a) then
    acc.map (fun b => if keyOf b == keyOf a then ⟨b.inventoryItemId, b.locationId, b.delta + a.delta⟩ else b)
  else acc ++ [a]

/-- Embeds the consolidation of adjustments by `itemId:locationId` key
(insertion order preserved, as for a JavaScript `Map`). -/
def consolidate (l : List Adj) : List Adj :=
  l.foldl addAdj []

/-- A batch entry submitted to `inventorySetQuantities`. -/
structure QuantityUpdate where
  inventoryItemId : String
  locationId : String
  quantity : Int
  compareQuantity : Int
deriving DecidableEq, Repr

/-- Embeds the `Promise.all` that reads each consolidated adjustment's
current quantity and builds the batch entry `max(0, current + delta)`
with `compareQuantity = current`; a failed level read rejects the whole
`Promise.all` (result `none`), aborting the handler before the write. -/
def buildQuantityUpdates (env : Env) (st : St) :
    List Adj → Option (List QuantityUpdate)
  | [] => some []
  | a :: rest =>
    if env.levelReadOk a.inventoryItemId a.locationId then
      let current := st.inventory a.inventoryItemId a.locationId
      match buildQuantityUpdates env st rest with
      | none => none
      | some l =>
        some (⟨a.inventoryItemId, a.locationId, max 0 (current + a.delta), current⟩ :: l)
    else none

/-- Apply a successful batch write to the remote inventory. -/
def applyQUs (st : St) (qus : List QuantityUpdate) : St :=
  qus.foldl (fun s u => s.setInv u.inventoryItemId u.locationId u.quantity) st

/-! ## The webhook handlers -/

/-- The fallback of the handlers' location resolution: query
`locations(first: 1)` and use the single returned location only if it
is active (and has a truthy id). -/
def fallbackLocation (locs : List Loc) : Option String :=
  match locs.head? with
  | some loc => if loc.isActive ∧ loc.id ≠ "" then some loc.id else none
  | none => none

/-- Modelled from the spec: "fall back to the shop's first active
location" — the first location of the shop whose `isActive` is true.
Stated for comparison with `fallbackLocation`, the code's behavior. -/
def firstActiveLocation (locs : List Loc) : Option String :=
  ((locs.filter (fun l => l.isActive)).head?).map (fun l => l.id)

/-- The fallback half of the handlers' location resolution, with its
failure mode: `none` = the locations query threw (caught at the
handler's top level), `some r` = the query succeeded and the fallback
resolved `r`. -/
def resolveFallback (env : Env) : Option (Option String) :=
  match env.shopLocations with
  | .error _ => none
  | .ok locs => some (fallbackLocation locs)

/-- The handlers' two-step location resolution given the order's
assigned fulfillment location (a falsy/empty id also triggers the
fallback): `none` = a query threw, `some none` = unresolved,
`some (some l)` = resolved. -/
def resolveOrderLocation (env : Env) (assigned : Option String) : Option (Option String) :=
  match assigned with
  | some l => if l = "" then resolveFallback env else some (some l)
  | none => resolveFallback env

/-- The body of the paid handler after the ProcessedOrder marker has
been inserted (`st1` already carries the marker).  Every early return
and every path reaching the top-level catch yields `st1`: the marker is
never removed.  After a completed line-item loop the handler performs
the consolidated batch write (if there are adjustments) and then
triggers the Reconciler, whose failures are swallowed. -/
def paidBody (env : Env) (order : OrderPayload) (rules : List RuleRec)
    (st1 : St) : St :=
  match order.line_items with
  | none => st1
  | some [] => st1
  | some items =>
    match env.assignedLocation with
    | .error _ => st1
    | .ok assigned =>
      match resolveOrderLocation env assigned with
      | none => st1
      | some none => st1
      | some (some locationId) =>
        match itemsAdjsPaid env locationId rules items with
        | none => st1
        | some adjs =>
          if adjs.isEmpty then
            (calculateMultipackInventory env rules st1).1
          else
            match buildQuantityUpdates env st1 (consolidate adjs) with
            | none => st1
            | some qus =>
              match env.batchWrite with
              | .error _ => st1
              | .ok applied =>
                (calculateMultipackInventory env rules
                  (if applied then applyQUs st1 qus else st1)).1

/-- Embeds the `orders/paid` action: resolve the order id (empty =
accept-and-ignore); no-op if a ProcessedOrder marker exists; otherwise
insert the marker and run the body. -/
def paidAction (env : Env) (shop : String) (order : OrderPayload)
    (rules : List RuleRec) (st : St) : St :=
  if orderIdOf order = "" then st
  else if (shop, orderIdOf order) ∈ st.processed then st
  else paidBody env order rules ⟨(shop, orderIdOf order) :: st.processed, st.inventory⟩

/-- Marker deletion (`db.processedOrder.delete`). -/
def deleteMarker (shop oid : String) (st : St) : St :=
  { st with processed := st.processed.filter (fun p => p ≠ (shop, oid)) }

/-- Embeds the `orders/cancelled` action: no-op unless a ProcessedOrder
marker exists; an order with no line items, or an unresolvable
location, deletes the marker and stops; a thrown remote call reaches
the top-level catch with the marker still in place; otherwise the
negated adjustments are consolidated, written, and the marker deleted. -/
def cancelledAction (env : Env) (shop : String) (order : OrderPayload)
    (rules : List RuleRec) (st : St) : St :=
  if orderIdOf order = "" then st
  else if (shop, orderIdOf order) ∉ st.processed then st
  else
    match order.line_items with
    | none => deleteMarker shop (orderIdOf order) st
    | some [] => deleteMarker shop (orderIdOf order) st
    | some items =>
      match env.assignedLocation with
      | .error _ => st
      | .ok assigned =>
        match resolveOrderLocation env assigned with
        | none => st
        | some none => deleteMarker shop (orderIdOf order) st
        | some (some locationId) =>
          match itemsAdjsCancelled env locationId rules items with
          | none => st
          | some adjs =>
            if adjs.isEmpty then deleteMarker shop (orderIdOf order) st
            else
              match buildQuantityUpdates env st (consolidate adjs) with
              | none => st
              | some qus =>
                match env.batchWrite with
                | .error _ => st
                | .ok applied =>
                  deleteMarker shop (orderIdOf order)
                    (if applied then applyQUs st qus else st)

/-! ## Delta accounting -/

/-- The net delta a list of adjustments carries for one
(inventoryItemId, locationId) pair. -/
def netDelta (l : List Adj) (itemId locId : String) : Int :=
  ((l.filter (fun a => a.inventoryItemId == itemId && a.locationId == locId)).map
    (fun a => a.delta)).sum

/-- Applying a list of adjustment deltas to an inventory function. -/
def applyDeltas (inv : String → String → Int) (l : List Adj)
    (itemId locId : String) : Int :=
  inv itemId locId + netDelta l itemId locId

/-- The sum of deltas a list of adjustments carries for one
consolidation key. -/
def keySum (l : List Adj) (k : String) : Int :=
  ((l.filter (fun a => keyOf a == k)).map (fun a => a.delta)).sum

/-- The invariant of the consolidation loop, relating the adjustments
processed so far to the accumulator: keys are pairwise distinct, every
accumulated delta is the key's running sum, every entry keeps the item
and location of some processed adjustment with its key, and every
processed key is represented. -/
def ConsInv (processed acc : List Adj) : Prop :=
  acc.Pairwise (fun a b => keyOf a ≠ keyOf b)
  ∧ (∀ e ∈ acc, e.delta = keySum processed (keyOf e))
  ∧ (∀ e ∈ acc, ∃ a ∈ processed,
      keyOf a = keyOf e ∧ a.inventoryItemId = e.inventoryItemId ∧ a.locationId = e.locationId)
  ∧ (∀ a ∈ processed, ∃ e ∈ acc, keyOf e = keyOf a)

/-! ## Concrete instances used by the witnesses -/

/-- An environment in which every remote call fails. -/
def envAllFail : Env :=
  ⟨.error "E", .error "E", fun _ => .error "E", fun _ _ => false, fun _ _ => true, .error "E"⟩

/-- A healthy environment: one active location "L", every variant's
inventory item is the variant id itself, all reads and writes succeed. -/
def envOkW : Env :=
  ⟨.ok none, .ok [⟨"L", true, "Main"⟩], fun v => .ok (some v),
   fun _ _ => true, fun _ _ => false, .ok true⟩

/-- Inventory with 10 units of "A" and 3 units of "B" at location "L". -/
def stW : St :=
  ⟨[], fun i l => if i = "A" ∧ l = "L" then 10 else if i = "B" ∧ l = "L" then 3 else 0⟩

/-- Inventory holding a negative available quantity for "T" at "L". -/
def stNeg : St :=
  ⟨[], fun i l => if i = "T" ∧ l = "L" then -5 else 0⟩

/-- Inventory with 2 units of "I" at "L". -/
def stOne : St :=
  ⟨[], fun i l => if i = "I" ∧ l = "L" then 2 else 0⟩

/-- Empty state. -/
def st0 : St := ⟨[], fun _ _ => 0⟩

/-- A state already holding the marker for order "1" of shop "s". -/
def stMark : St := ⟨[("s", "1")], fun _ _ => 0⟩

/-- The spec's example rule: variant "V" built from 2 units of "A" and
1 unit of "B", toggle enabled. -/
def ruleW : RuleRec := ⟨"V", "deduction", none, .absent, .parsed [⟨"A", 2⟩, ⟨"B", 1⟩], true⟩

/-- A self-referential rule: one mapping targets the rule's own variant. -/
def ruleSelfW : RuleRec := ⟨"V", "deduction", none, .absent, .parsed [⟨"V", 2⟩], true⟩

/-- Three adjustments, two of them for the same (item, location) pair. -/
def adjsW : List Adj := [⟨"I", "L", -2⟩, ⟨"J", "L", -1⟩, ⟨"I", "L", 5⟩]

/-- An order payload with numeric id 1 and no line items. -/
def orderW1 : OrderPayload := ⟨some 1, none, none, none⟩

/-- An order payload with numeric id 2 and no line items. -/
def orderW2 : OrderPayload := ⟨some 2, none, none, none⟩

/-! ## Helper lemmas: folded minimum -/

theorem foldl_min_le_init (l : List Int) : ∀ a : Int, List.foldl min a l ≤ a := by
  induction l with
  | nil => intro a; simp
  | cons x xs ih =>
    intro a
    calc List.foldl min (min a x) xs ≤ min a x := ih (min a x)
    _ ≤ a := min_le_left _ _

theorem foldl_min_le_mem (l : List Int) : ∀ a b : Int, b ∈ l → List.foldl min a l ≤ b := by
  induction l with
  | nil => intro a b hb; cases hb
  | cons x xs ih =>
    intro a b hb
    rcases List.mem_cons.mp hb with h | h
    · subst h
      calc List.foldl min (min a b) xs ≤ min a b := foldl_min_le_init _ _
      _ ≤ b := min_le_right _ _
    · exact ih (min a x) b h

theorem foldl_min_eq_or (l : List Int) : ∀ a : Int, List.foldl min a l = a ∨ List.foldl min a l ∈ l := by
  induction l with
  | nil => intro a; left; rfl
  | cons x xs ih =>
    intro a
    rcases ih (min a x) with h | h
    · rcases min_choice a x with hm | hm
      · left; simpa [hm] using h
      · right
        rw [List.foldl_cons, h, hm]
        exact List.mem_cons_self _ _
    · right; exact List.mem_cons_of_mem _ h

/-! ## C2: the bundle calculator computes the bottleneck minimum -/

/-- C2: for every mapping list M and every availability assignment, the
bundle calculator returns 0 on an empty M, and otherwise the minimum
over all mappings of floor(available(target) / multiplier): it is a
lower bound of every mapping's quotient and is attained by one of them. -/
theorem bundleCalculator_min_spec (env : Env) (st : St)
    (M : List DeductionMapping) (locationId : String)
    (hmult : ∀ m ∈ M, 1 ≤ m.multiplier) :
    (M = [] → calculateBundlesForVariant env st M locationId = 0)
    ∧ (∀ m ∈ M, calculateBundlesForVariant env st M locationId ≤
        Int.fdiv (getVariantInventory env st m.targetVariantId locationId) m.multiplier)
    ∧ (M ≠ [] → ∃ m, m ∈ M ∧ calculateBundlesForVariant env st M locationId =
        Int.fdiv (getVariantInventory env st m.targetVariantId locationId) m.multiplier) := by
  clear hmult
  cases M with
  | nil =>
    refine ⟨fun _ => rfl, ?_, ?_⟩
    · intro m hm; cases hm
    · intro h; exact absurd rfl h
  | cons m0 ms =>
    set f : DeductionMapping → Int := fun m =>
      Int.fdiv (getVariantInventory env st m.targetVariantId locationId) m.multiplier with hf
    have hcalc : calculateBundlesForVariant env st (m0 :: ms) locationId =
        List.foldl min (f m0) (ms.map f) := rfl
    refine ⟨fun h => (nomatch h), ?_, ?_⟩
    · intro m hm
      rcases List.mem_cons.mp hm with h | h
      · subst h; rw [hcalc]; exact foldl_min_le_init _ _
      · rw [hcalc]
        exact foldl_min_le_mem _ _ _ (List.mem_map_of_mem f h)
    · intro _
      rcases foldl_min_eq_or (ms.map f) (f m0) with h | h
      · exact ⟨m0, List.mem_cons_self _ _, hcalc.trans h⟩
      · rcases List.mem_map.mp h with ⟨m, hm, hq⟩
        exact ⟨m, List.mem_cons_of_mem _ hm, hcalc.trans hq.symm⟩

/-- Witness for C2, on the spec's own example: A has 10 units, B has 3,
multipliers 2 and 1, so the bundle count is bounded by B's quotient 3. -/
theorem bundleCalculator_min_spec_witness :
    calculateBundlesForVariant envOkW stW [⟨"A", 2⟩, ⟨"B", 1⟩] "L" ≤
      Int.fdiv (getVariantInventory envOkW stW "B" "L") 1 :=
  (bundleCalculator_min_spec envOkW stW [⟨"A", 2⟩, ⟨"B", 1⟩] "L" (by decide)).2.1
    ⟨"B", 1⟩ (by decide)

/-! ## C9: negative availability makes the calculator negative -/

/-- C9 counterexample: with a single mapping of multiplier 1 whose
target reports an available quantity of -5 (an "unusual quantity" the
claim explicitly includes), the bundle calculator returns -5, so its
result can be negative. -/
theorem bundles_negative_counterexample :
    calculateBundlesForVariant envOkW stNeg [⟨"T", 1⟩] "L" < 0 := by decide

/-- C9 amended: the bundle calculator is never negative provided every
mapping's multiplier is at least 1 and every looked-up availability is
non-negative; and any availability lookup failure (thrown item
resolution, missing inventory item, or failed level read) contributes
0 available instead of an exception. -/
theorem bundles_nonneg_amended (env : Env) (st : St) (locationId : String) :
    (∀ M : List DeductionMapping,
      (∀ m ∈ M, 1 ≤ m.multiplier ∧
        0 ≤ getVariantInventory env st m.targetVariantId locationId) →
      0 ≤ calculateBundlesForVariant env st M locationId)
    ∧ (∀ v e, env.inventoryItemOf v = .error e →
        getVariantInventory env st v locationId = 0)
    ∧ (∀ v, env.inventoryItemOf v = .ok none →
        getVariantInventory env st v locationId = 0)
    ∧ (∀ v itemId, env.inventoryItemOf v = .ok (some itemId) →
        env.levelReadOk itemId locationId = false →
        getVariantInventory env st v locationId = 0) := by
  refine ⟨?_, ?_, ?_, ?_⟩
  · intro M hM
    cases M with
    | nil => exact le_refl 0
    | cons m0 ms =>
      set f : DeductionMapping → Int := fun m =>
        Int.fdiv (getVariantInventory env st m.targetVariantId locationId) m.multiplier with hf
      have hnn : ∀ m ∈ m0 :: ms, 0 ≤ f m := by
        intro m hm
        rcases hM m hm with ⟨h1, h2⟩
        exact Int.fdiv_nonneg h2 (le_trans (by decide) h1)
      have hcalc : calculateBundlesForVariant env st (m0 :: ms) locationId =
          List.foldl min (f m0) (ms.map f) := rfl
      rw [hcalc]
      rcases foldl_min_eq_or (ms.map f) (f m0) with h | h
      · rw [h]; exact hnn m0 (List.mem_cons_self _ _)
      · rcases List.mem_map.mp h with ⟨m, hm, hq⟩
        rw [← hq]; exact hnn m (List.mem_cons_of_mem _ hm)
  · intro v e he; simp [getVariantInventory, he]
  · intro v he; simp [getVariantInventory, he]
  · intro v itemId hv hread; simp [getVariantInventory, hv, hread]

/-- Witness for C9's amended statement: the calculator is non-negative
on healthy inputs, and a failing item lookup reads as 0 available. -/
theorem bundles_nonneg_amended_witness :
    (0 ≤ calculateBundlesForVariant envOkW stW [⟨"A", 3⟩] "L")
    ∧ getVariantInventory envAllFail stW "X" "L" = 0 :=
  ⟨(bundles_nonneg_amended envOkW stW "L").1 [⟨"A", 3⟩] (by decide),
   (bundles_nonneg_amended envAllFail stW "L").2.1 "X" "E" rfl⟩

/-! ## C8: the location fallback ignores later active locations -/

/-- C8 (code bug): when the order has no assigned fulfillment location
and the shop's first returned location is inactive, the handlers'
fallback resolves nothing — even though a later location is active —
whereas the code's own comment and the spec call for the shop's first
active location.  On locations [L1 inactive, L2 active] the code
resolves none while the first active location is L2. -/
theorem fallback_skips_inactive_first_location :
    fallbackLocation [⟨"L1", false, "One"⟩, ⟨"L2", true, "Two"⟩] = none
    ∧ firstActiveLocation [⟨"L1", false, "One"⟩, ⟨"L2", true, "Two"⟩] = some "L2" := by
  decide

/-! ## Helper lemmas: the Reconciler's writes -/

theorem updateVariantInventory_submitted_nonneg (env : Env) (st : St) (v l : String)
    (q : Int) : ∀ s, (updateVariantInventory env st v l q).2.1 = some s → 0 ≤ s := by
  intro s hs
  unfold updateVariantInventory at hs
  split at hs
  · simp at hs
  · simp at hs
  · split at hs
    · split at hs
      · simp only [] at hs
        rw [← Option.some.inj hs]
        exact le_max_left 0 q
      · simp only [] at hs
        rw [← Option.some.inj hs]
        exact le_max_left 0 q
    · simp at hs

theorem updateVariantInventory_processed (env : Env) (st : St) (v l : String) (q : Int) :
    ((updateVariantInventory env st v l q).2.2).processed = st.processed := by
  unfold updateVariantInventory
  split
  · rfl
  · rfl
  · split
    · split
      · rfl
      · rfl
    · rfl

theorem updateVariantInventory_itemErr (env : Env) (st : St) (v l : String) (q : Int)
    (e : String) (h : env.inventoryItemOf v = .error e) :
    updateVariantInventory env st v l q = (false, none, st) := by
  unfold updateVariantInventory
  rw [h]

theorem reconLocs_processed (env : Env) (ms : List DeductionMapping) (v : String) :
    ∀ (locs : List Loc) (st : St), ((reconLocs env ms v locs st).1).processed = st.processed := by
  intro locs
  induction locs with
  | nil => intro st; rfl
  | cons loc rest ih =>
    intro st
    show ((reconLocs env ms v rest _).1).processed = st.processed
    rw [ih, updateVariantInventory_processed]

theorem reconRule_processed (env : Env) (active : List Loc) (r : RuleRec) (st : St) :
    ((reconRule env active r st).1).processed = st.processed := by
  unfold reconRule
  split
  · rfl
  · rfl
  · split
    · rfl
    · split
      · rfl
      · split
        · rfl
        · exact reconLocs_processed env _ r.variantId active st

theorem reconRules_processed (env : Env) (active : List Loc) :
    ∀ (rs : List RuleRec) (st : St),
      ((reconRules env active rs st).1).processed = st.processed := by
  intro rs
  induction rs with
  | nil => intro st; rfl
  | cons r rest ih =>
    intro st
    show ((reconRules env active rest _).1).processed = st.processed
    rw [ih, reconRule_processed]

theorem calculateMultipackInventory_processed (env : Env) (rules : List RuleRec) (st : St) :
    ((calculateMultipackInventory env rules st).1).processed = st.processed := by
  unfold calculateMultipackInventory
  split
  · rfl
  · split
    · rfl
    · split
      · rfl
      · exact reconRules_processed env _ _ st

theorem reconLocs_itemErr (env : Env) (ms : List DeductionMapping) (v : String)
    (h : ∀ v2, ∃ e, env.inventoryItemOf v2 = .error e) :
    ∀ (locs : List Loc) (st : St), (reconLocs env ms v locs st).1 = st := by
  intro locs
  induction locs with
  | nil => intro st; rfl
  | cons loc rest ih =>
    intro st
    obtain ⟨e, he⟩ := h v
    show (reconLocs env ms v rest ((updateVariantInventory env st v loc.id _).2.2)).1 = st
    rw [updateVariantInventory_itemErr env st v loc.id _ e he]
    exact ih st

theorem reconRule_itemErr (env : Env) (active : List Loc) (r : RuleRec) (st : St)
    (h : ∀ v2, ∃ e, env.inventoryItemOf v2 = .error e) :
    (reconRule env active r st).1 = st := by
  unfold reconRule
  split
  · rfl
  · rfl
  · split
    · rfl
    · split
      · rfl
      · split
        · rfl
        · exact reconLocs_itemErr env _ r.variantId h active st

theorem reconRules_itemErr (env : Env) (active : List Loc)
    (h : ∀ v2, ∃ e, env.inventoryItemOf v2 = .error e) :
    ∀ (rs : List RuleRec) (st : St), (reconRules env active rs st).1 = st := by
  intro rs
  induction rs with
  | nil => intro st; rfl
  | cons r rest ih =>
    intro st
    show (reconRules env active rest ((reconRule env active r st).1)).1 = st
    rw [reconRule_itemErr env active r st h]
    exact ih st

theorem reconLocs_submitted_nonneg (env : Env) (ms : List DeductionMapping) (v : String) :
    ∀ (locs : List Loc) (st : St), ∀ e ∈ (reconLocs env ms v locs st).2,
      ∀ s, e.submitted = some s → 0 ≤ s := by
  intro locs
  induction locs with
  | nil => intro st e he; cases he
  | cons loc rest ih =>
    intro st e he s hs
    rcases List.mem_cons.mp he with h | h
    · subst h
      exact updateVariantInventory_submitted_nonneg env st v loc.id _ s hs
    · exact ih _ e h s hs

theorem reconRule_submitted_nonneg (env : Env) (active : List Loc) (r : RuleRec) (st : St) :
    ∀ e ∈ (reconRule env active r st).2, ∀ s, e.submitted = some s → 0 ≤ s := by
  intro e he
  unfold reconRule at he
  split at he
  · cases he
  · cases he
  · split at he
    · cases he
    · split at he
      · cases he
      · split at he
        · cases he
        · exact reconLocs_submitted_nonneg env _ r.variantId active st e he

theorem reconRules_submitted_nonneg (env : Env) (active : List Loc) :
    ∀ (rs : List RuleRec) (st : St), ∀ e ∈ (reconRules env active rs st).2,
      ∀ s, e.submitted = some s → 0 ≤ s := by
  intro rs
  induction rs with
  | nil => intro st e he; cases he
  | cons r rest ih =>
    intro st e he s hs
    rcases List.mem_append.mp he with h | h
    · exact reconRule_submitted_nonneg env active r st e h s hs
    · exact ih _ e h s hs

theorem buildQuantityUpdates_nonneg (env : Env) (st : St) :
    ∀ (adjs : List Adj) (qus : List QuantityUpdate),
      buildQuantityUpdates env st adjs = some qus → ∀ u ∈ qus, 0 ≤ u.quantity := by
  intro adjs
  induction adjs with
  | nil =>
    intro qus h u hu
    rw [← Option.some.inj h] at hu
    cases hu
  | cons a rest ih =>
    intro qus h u hu
    unfold buildQuantityUpdates at h
    split at h
    · split at h
      · cases h
      · rename_i l hl
        rw [← Option.some.inj h] at hu
        rcases List.mem_cons.mp hu with h2 | h2
        · subst h2
          exact le_max_left 0 _
        · exact ih l hl u h2
    · cases h

/-! ## C6: every submitted quantity is clamped to be non-negative -/

/-- C6: every quantity the program submits to the remote inventory
write is at least 0 — both the Reconciler's per-location writes (the
quantity recorded as submitted in the log) and the order handlers'
batch entries built as `max(0, current + delta)`, for every current
quantity and every delta. -/
theorem submitted_quantities_nonneg :
    (∀ (env : Env) (rules : List RuleRec) (st : St),
      ∀ e ∈ (calculateMultipackInventory env rules st).2,
        ∀ s, e.submitted = some s → 0 ≤ s)
    ∧ (∀ (env : Env) (st : St) (adjs : List Adj) (qus : List QuantityUpdate),
        buildQuantityUpdates env st adjs = some qus → ∀ u ∈ qus, 0 ≤ u.quantity) := by
  constructor
  · intro env rules st e he s hs
    unfold calculateMultipackInventory at he
    split at he
    · cases he
    · split at he
      · cases he
      · split at he
        · cases he
        · exact reconRules_submitted_nonneg env _ _ st e he s hs
  · exact fun env st => buildQuantityUpdates_nonneg env st

/-- Witness for C6: the Reconciler's example run submits 3 (≥ 0) for
variant V, and a batch entry whose delta would drive the quantity to
-3 is clamped to 0 (≥ 0). -/
theorem submitted_quantities_nonneg_witness :
    (0 : Int) ≤ 3 ∧ (0 : Int) ≤ (QuantityUpdate.mk "I" "L" 0 2).quantity :=
  ⟨submitted_quantities_nonneg.1 envOkW [ruleW] stW ⟨"V", "L", some 3, true⟩
      (by decide) 3 (by decide),
   submitted_quantities_nonneg.2 envOkW stOne [⟨"I", "L", -5⟩] [⟨"I", "L", 0, 2⟩]
      (by decide) ⟨"I", "L", 0, 2⟩ (by decide)⟩

/-! ## C4: self-referential rules are never auto-reconciled -/

theorem reconLocs_variantId (env : Env) (ms : List DeductionMapping) (v : String) :
    ∀ (locs : List Loc) (st : St), ∀ e ∈ (reconLocs env ms v locs st).2,
      e.variantId = v := by
  intro locs
  induction locs with
  | nil => intro st e he; cases he
  | cons loc rest ih =>
    intro st e he
    rcases List.mem_cons.mp he with h | h
    · subst h; rfl
    · exact ih _ e h

theorem reconRule_variantId (env : Env) (active : List Loc) (r : RuleRec) (st : St) :
    ∀ e ∈ (reconRule env active r st).2, e.variantId = r.variantId := by
  intro e he
  unfold reconRule at he
  split at he
  · cases he
  · cases he
  · split at he
    · cases he
    · split at he
      · cases he
      · split at he
        · cases he
        · exact reconLocs_variantId env _ r.variantId active st e he

theorem reconRule_selfmap (env : Env) (active : List Loc) (r : RuleRec) (st : St)
    (h : hasSelfMapping r = true) : reconRule env active r st = (st, []) := by
  unfold hasSelfMapping at h
  rcases hdm : r.deductionMappings with _ | _ | ms
  · rw [hdm] at h; cases h
  · rw [hdm] at h; cases h
  · rw [hdm] at h
    have h2 : (ms.any fun m => m.targetVariantId == r.variantId) = true := h
    unfold reconRule
    rw [hdm]
    show (if ms.isEmpty = true then (st, [])
      else if (ms.any fun m => m.targetVariantId == r.variantId) = true then (st, [])
      else if !r.calculateInventoryForSelfMapping then (st, [])
      else reconLocs env ms r.variantId active st) = (st, [])
    rw [h2]
    split <;> rfl

theorem reconRules_not_selfvariant (env : Env) (active : List Loc) (v : String) :
    ∀ (rs : List RuleRec),
      (∀ r2 ∈ rs, r2.variantId = v → hasSelfMapping r2 = true) →
      ∀ (st : St), ∀ e ∈ (reconRules env active rs st).2, e.variantId ≠ v := by
  intro rs
  induction rs with
  | nil => intro _ st e he; cases he
  | cons r rest ih =>
    intro h st e he
    rcases List.mem_append.mp he with hm | hm
    · by_cases hv : r.variantId = v
      · have hself := h r (List.mem_cons_self _ _) hv
        rw [reconRule_selfmap env active r st hself] at hm
        cases hm
      · rw [reconRule_variantId env active r st e hm]
        exact hv
    · exact ih (fun r2 h2 => h r2 (List.mem_cons_of_mem _ h2)) _ e hm

/-- C4: a rule whose parsed deductionMappings contain a mapping
targeting the rule's own variantId is skipped by the Reconciler: no
write attempt (no log entry) carries that variant, whatever the value
of calculateInventoryForSelfMapping.  The uniqueness hypothesis is the
store's unique (shop, variantId) constraint. -/
theorem reconciler_skips_self_mapped (env : Env) (rules : List RuleRec) (st : St)
    (r : RuleRec) (hr : r ∈ rules) (hself : hasSelfMapping r = true)
    (huniq : ∀ r2 ∈ rules, r2.variantId = r.variantId → r2 = r) :
    ∀ e ∈ (calculateMultipackInventory env rules st).2, e.variantId ≠ r.variantId := by
  intro e he
  unfold calculateMultipackInventory at he
  split at he
  · cases he
  · split at he
    · cases he
    · split at he
      · cases he
      · refine reconRules_not_selfvariant env _ r.variantId _ ?_ st e he
        intro r2 h2 hv
        have hmem := List.mem_of_mem_filter h2
        rw [huniq r2 hmem hv]
        exact hself

/-- Witness for C4: with a rule for V mapping onto V itself (toggle
enabled), the Reconciler produces no write for V. -/
theorem reconciler_skips_self_mapped_witness :
    ¬ ((⟨"V", "L", none, true⟩ : LogEntry) ∈
        (calculateMultipackInventory envOkW [ruleSelfW] stW).2) :=
  fun h =>
    reconciler_skips_self_mapped envOkW [ruleSelfW] stW ruleSelfW
      (by decide) (by decide) (by decide) ⟨"V", "L", none, true⟩ h rfl

/-! ## C7: the Reconciler never raises and failures stay local -/

theorem reconLocs_pairs (env : Env) (ms : List DeductionMapping) (v : String) :
    ∀ (locs : List Loc) (st : St),
      ((reconLocs env ms v locs st).2).map (fun e => (e.variantId, e.locationId)) =
        locs.map (fun l => (v, l.id)) := by
  intro locs
  induction locs with
  | nil => intro st; rfl
  | cons loc rest ih =>
    intro st
    show ((⟨v, loc.id, _, _⟩ : LogEntry) :: (reconLocs env ms v rest _).2).map _ = _
    rw [List.map_cons, ih]
    rfl

theorem reconRule_eligible_eq (env : Env) (active : List Loc) (r : RuleRec) (st : St)
    (hel : r.eligible = true) :
    ∃ ms, r.deductionMappings = .parsed ms
      ∧ reconRule env active r st = reconLocs env ms r.variantId active st := by
  unfold RuleRec.eligible at hel
  rcases hdm : r.deductionMappings with _ | _ | ms
  · rw [hdm] at hel; cases hel
  · rw [hdm] at hel; cases hel
  · rw [hdm] at hel
    simp only [Bool.and_eq_true, Bool.not_eq_true'] at hel
    refine ⟨ms, rfl, ?_⟩
    simp [reconRule, hdm, hel.1.1, hel.1.2, hel.2]

theorem reconRules_coverage (env : Env) (active : List Loc) :
    ∀ (rs : List RuleRec) (st : St) (r : RuleRec), r ∈ rs → r.eligible = true →
      ∀ l ∈ active, (r.variantId, l.id) ∈
        ((reconRules env active rs st).2).map (fun e => (e.variantId, e.locationId)) := by
  intro rs
  induction rs with
  | nil => intro st r hr; cases hr
  | cons r0 rest ih =>
    intro st r hr hel l hl
    show (r.variantId, l.id) ∈
      ((reconRule env active r0 st).2 ++ (reconRules env active rest _).2).map _
    rw [List.map_append]
    rcases List.mem_cons.mp hr with h | h
    · subst h
      obtain ⟨ms, _, heq⟩ := reconRule_eligible_eq env active r st hel
      apply List.mem_append_left
      rw [heq, reconLocs_pairs]
      exact List.mem_map_of_mem _ hl
    · exact List.mem_append_right _ (ih _ r h hel l hl)

/-- C7: the Reconciler is failure-tolerant.  First, coverage: whenever
the locations query succeeds, every eligible rule gets a processing
attempt (a log entry) at every active location, for every environment,
including ones in which any or all remote lookups and writes fail — no
failure aborts the remaining rules or locations.  Second, even when
every remote call fails (`envAllFail`), or every inventory-item lookup
throws, the call still returns normally with the state untouched: no
exception escapes its boundary. -/
theorem reconciler_failure_isolated (env : Env) (rules : List RuleRec) (st : St) :
    (∀ locs, env.shopLocations = Except.ok locs →
      ∀ r ∈ rules, r.eligible = true →
        ∀ l ∈ locs.filter (fun lo => lo.isActive),
          (r.variantId, l.id) ∈
            ((calculateMultipackInventory env rules st).2).map
              (fun e => (e.variantId, e.locationId)))
    ∧ (calculateMultipackInventory envAllFail rules st).1 = st
    ∧ (∀ env2 : Env, (∀ v, ∃ e, env2.inventoryItemOf v = Except.error e) →
        (calculateMultipackInventory env2 rules st).1 = st) := by
  refine ⟨?_, ?_, ?_⟩
  · intro locs hsl r hr hel l hl
    have hstored : r.deductionMappings.isStored = true := by
      unfold RuleRec.eligible at hel
      rcases hdm : r.deductionMappings with _ | _ | ms
      · rw [hdm] at hel; cases hel
      · rfl
      · rfl
    have hrf : r ∈ rules.filter (fun r2 => r2.deductionMappings.isStored) :=
      List.mem_filter.mpr ⟨hr, hstored⟩
    have hvr : (rules.filter (fun r2 => r2.deductionMappings.isStored)).isEmpty = false := by
      rcases h : (rules.filter (fun r2 => r2.deductionMappings.isStored)) with _ | ⟨x, xs⟩
      · rw [h] at hrf; cases hrf
      · rw [h]; rfl
    have hact : ((locs.filter (fun lo => lo.isActive))).isEmpty = false := by
      rcases h : locs.filter (fun lo => lo.isActive) with _ | ⟨x, xs⟩
      · rw [h] at hl; cases hl
      · rw [h]; rfl
    unfold calculateMultipackInventory
    rw [hvr, hsl]
    rw [if_neg (by simp)]
    show (r.variantId, l.id) ∈ List.map (fun e => (e.variantId, e.locationId))
      (if (locs.filter (fun lo => lo.isActive)).isEmpty = true then (st, [])
       else reconRules env (locs.filter (fun lo => lo.isActive))
         (rules.filter (fun r2 => r2.deductionMappings.isStored)) st).2
    rw [hact, if_neg (by simp)]
    exact reconRules_coverage env _ _ st r hrf hel l hl
  · unfold calculateMultipackInventory
    split
    · rfl
    · rfl
  · intro env2 h
    unfold calculateMultipackInventory
    split
    · rfl
    · split
      · rfl
      · split
        · rfl
        · exact reconRules_itemErr env2 _ h _ st

/-- Witness for C7: in the healthy example environment the eligible
rule for V is processed at the active location L. -/
theorem reconciler_failure_isolated_witness :
    ("V", "L") ∈ ((calculateMultipackInventory envOkW [ruleW] stW).2).map
      (fun e => (e.variantId, e.locationId)) :=
  (reconciler_failure_isolated envOkW [ruleW] stW).1 [⟨"L", true, "Main"⟩] rfl
    ruleW (by decide) (by decide) ⟨"L", true, "Main"⟩ (by decide)

/-! ## C1: cancelled processing is the exact mirror of paid processing -/

theorem mappingAdjs_mirror (env : Env) (locationId : String) (q : Int) :
    ∀ ms : List DeductionMapping,
      (mappingAdjsCancelled env locationId q ms).1 =
        (mappingAdjsPaid env locationId q ms).1.map negAdj
      ∧ (mappingAdjsCancelled env locationId q ms).2 =
        (mappingAdjsPaid env locationId q ms).2 := by
  intro ms
  induction ms with
  | nil => exact ⟨rfl, rfl⟩
  | cons m rest ih =>
    cases h : env.inventoryItemOf m.targetVariantId with
    | error e =>
      constructor <;> simp [mappingAdjsPaid, mappingAdjsCancelled, h]
    | ok o =>
      cases o with
      | none =>
        constructor <;>
          simp [mappingAdjsPaid, mappingAdjsCancelled, h, ih.1, ih.2]
      | some t =>
        constructor <;>
          simp [mappingAdjsPaid, mappingAdjsCancelled, h, ih.1, ih.2, negAdj]

theorem flavorAdjs_mirror (env : Env) (locationId : String) (q : Int) :
    ∀ fs : List String,
      (flavorAdjsCancelled env locationId q fs).1 =
        (flavorAdjsPaid env locationId q fs).1.map negAdj
      ∧ (flavorAdjsCancelled env locationId q fs).2 =
        (flavorAdjsPaid env locationId q fs).2 := by
  intro fs
  induction fs with
  | nil => exact ⟨rfl, rfl⟩
  | cons f rest ih =>
    cases h : env.inventoryItemOf f with
    | error e =>
      constructor <;> simp [flavorAdjsPaid, flavorAdjsCancelled, h]
    | ok o =>
      cases o with
      | none =>
        constructor <;>
          simp [flavorAdjsPaid, flavorAdjsCancelled, h, ih.1, ih.2]
      | some fi =>
        constructor <;>
          simp [flavorAdjsPaid, flavorAdjsCancelled, h, ih.1, ih.2, negAdj]

theorem legacyAdjs_mirror (env : Env) (locationId : String) (rule : RuleRec)
    (inventoryItemId : String) (q : Int) :
    legacyCancelledAdjs env locationId rule inventoryItemId q =
      (legacyPaidAdjs env locationId rule inventoryItemId q).map negAdj := by
  by_cases h1 : rule.type = "multiplier"
  · simp [legacyPaidAdjs, legacyCancelledAdjs, h1, negAdj]
  · by_cases h2 : rule.type = "variety_pack"
    · rcases hf : rule.varietyPackFlavorIds with _ | _ | flavorIds
      · simp [legacyPaidAdjs, legacyCancelledAdjs, h1, h2, hf]
      · simp [legacyPaidAdjs, legacyCancelledAdjs, h1, h2, hf]
      · have hm := flavorAdjs_mirror env locationId q flavorIds
        by_cases hb : (flavorAdjsPaid env locationId q flavorIds).2 = true
        · simp [legacyPaidAdjs, legacyCancelledAdjs, h1, h2, hf, hm.1, hm.2, hb, negAdj]
        · have hb2 : (flavorAdjsPaid env locationId q flavorIds).2 = false :=
            Bool.eq_false_iff.mpr hb
          simp [legacyPaidAdjs, legacyCancelledAdjs, h1, h2, hf, hm.1, hm.2, hb2]
    · simp [legacyPaidAdjs, legacyCancelledAdjs, h1, h2]

theorem adjsForRule_mirror (env : Env) (locationId : String) (rule : RuleRec)
    (inventoryItemId : String) (q : Int) :
    adjsForRuleCancelled env locationId rule inventoryItemId q =
      (adjsForRulePaid env locationId rule inventoryItemId q).map negAdj := by
  rcases hdm : rule.deductionMappings with _ | _ | ms
  · simp only [adjsForRulePaid, adjsForRuleCancelled, hdm]
    exact legacyAdjs_mirror env locationId rule inventoryItemId q
  · simp only [adjsForRulePaid, adjsForRuleCancelled, hdm]
    exact legacyAdjs_mirror env locationId rule inventoryItemId q
  · by_cases hms : ms.isEmpty = true
    · simp [adjsForRulePaid, adjsForRuleCancelled, hdm, hms]
    · have hm := mappingAdjs_mirror env locationId q ms
      have hms2 : ms.isEmpty = false := Bool.eq_false_iff.mpr hms
      by_cases hb : (mappingAdjsPaid env locationId q ms).2 = true
      · simp [adjsForRulePaid, adjsForRuleCancelled, hdm, hms2, hm.1, hm.2, hb, negAdj]
      · have hb2 : (mappingAdjsPaid env locationId q ms).2 = false :=
          Bool.eq_false_iff.mpr hb
        simp [adjsForRulePaid, adjsForRuleCancelled, hdm, hms2, hm.1, hm.2, hb2,
          legacyAdjs_mirror env locationId rule inventoryItemId q]

theorem processItem_mirror (env : Env) (locationId : String)
    (rules : List RuleRec) (it : LineItem) :
    processItemCancelled env locationId rules it =
      Option.map (List.map negAdj) (processItemPaid env locationId rules it) := by
  unfold processItemPaid processItemCancelled
  by_cases h1 : it.variant_inventory_management ≠ some "shopify"
  · simp [h1]
  · simp only [h1, if_false]
    cases rulesLookup rules (gidOfVariant it.variant_id) with
    | none => rfl
    | some rule =>
      cases env.inventoryItemOf (gidOfVariant it.variant_id) with
      | error e => rfl
      | ok o =>
        cases o with
        | none => rfl
        | some inventoryItemId =>
          simp [adjsForRule_mirror env locationId rule inventoryItemId it.quantity]

/-- The paid and cancelled line-item loops mirror each other: same
abort behavior, negated adjustment lists. -/
theorem itemsAdjs_mirror (env : Env) (locationId : String) (rules : List RuleRec) :
    ∀ items : List LineItem,
      itemsAdjsCancelled env locationId rules items =
        Option.map (List.map negAdj) (itemsAdjsPaid env locationId rules items) := by
  intro items
  induction items with
  | nil => rfl
  | cons it rest ih =>
    show (match processItemCancelled env locationId rules it with
      | none => none
      | some a =>
        match itemsAdjsCancelled env locationId rules rest with
        | none => none
        | some b => some (a ++ b)) = _
    rw [processItem_mirror, ih]
    cases h1 : processItemPaid env locationId rules it with
    | none => simp [itemsAdjsPaid, h1]
    | some a =>
      cases h2 : itemsAdjsPaid env locationId rules rest with
      | none => simp [itemsAdjsPaid, h1, h2]
      | some b => simp [itemsAdjsPaid, h1, h2]

theorem netDelta_cons (a : Adj) (l : List Adj) (i l0 : String) :
    netDelta (a :: l) i l0 =
      (if (a.inventoryItemId == i && a.locationId == l0) = true then a.delta else 0)
        + netDelta l i l0 := by
  by_cases hc : (a.inventoryItemId == i && a.locationId == l0) = true
  · simp [netDelta, List.filter_cons, hc]
  · simp [netDelta, List.filter_cons, hc]

theorem netDelta_neg (i l0 : String) :
    ∀ l : List Adj, netDelta (l.map negAdj) i l0 = - netDelta l i l0 := by
  intro l
  induction l with
  | nil => simp [netDelta]
  | cons a rest ih =>
    rw [List.map_cons, netDelta_cons, netDelta_cons, ih]
    have hfields : ((negAdj a).inventoryItemId == i && (negAdj a).locationId == l0)
        = (a.inventoryItemId == i && a.locationId == l0) := rfl
    rw [hfields]
    by_cases hc : (a.inventoryItemId == i && a.locationId == l0) = true
    · simp [hc, negAdj]; omega
    · simp [hc]

/-- C1: round trip.  The cancelled handler computes, line item by line
item and for every rule shape (deductionMappings, legacy multiplier,
legacy variety_pack, including every parse-failure fallback), exactly
the negation of the paid handler's deltas; consequently applying the
paid deltas and then the cancelled deltas returns every inventory item
at every location to its pre-order quantity. -/
theorem paid_cancelled_mirror_roundtrip :
    (∀ (env : Env) (locationId : String) (rules : List RuleRec) (it : LineItem),
      processItemCancelled env locationId rules it =
        Option.map (List.map negAdj) (processItemPaid env locationId rules it))
    ∧ (∀ (env : Env) (locationId : String) (rules : List RuleRec) (items : List LineItem),
        itemsAdjsCancelled env locationId rules items =
          Option.map (List.map negAdj) (itemsAdjsPaid env locationId rules items))
    ∧ (∀ (inv : String → String → Int) (adjs : List Adj) (itemId locId : String),
        applyDeltas (applyDeltas inv adjs) (adjs.map negAdj) itemId locId =
          inv itemId locId) := by
  refine ⟨processItem_mirror, itemsAdjs_mirror, ?_⟩
  intro inv adjs itemId locId
  unfold applyDeltas
  rw [netDelta_neg]
  omega

/-! ## C5: consolidation of same-pair adjustments -/

theorem keySum_append (l1 l2 : List Adj) (k : String) :
    keySum (l1 ++ l2) k = keySum l1 k + keySum l2 k := by
  simp [keySum, List.filter_append]

theorem keySum_single (x : Adj) (k : String) :
    keySum [x] k = if (keyOf x == k) = true then x.delta else 0 := by
  by_cases h : (keyOf x == k) = true <;> simp [keySum, List.filter_cons, h]

theorem keySum_eq_zero {l : List Adj} {k : String}
    (h : ∀ a ∈ l, ¬((keyOf a == k) = true)) : keySum l k = 0 := by
  unfold keySum
  induction l with
  | nil => rfl
  | cons a rest ih =>
    rw [List.filter_cons, if_neg (h a (List.mem_cons_self _ _))]
    exact ih (fun b hb => h b (List.mem_cons_of_mem _ hb))

theorem filter_ext (p q2 : Adj → Bool) :
    ∀ l : List Adj, (∀ a ∈ l, p a = q2 a) → l.filter p = l.filter q2 := by
  intro l
  induction l with
  | nil => intro _; rfl
  | cons a rest ih =>
    intro h
    rw [List.filter_cons, List.filter_cons, h a (List.mem_cons_self _ _),
      ih (fun b hb => h b (List.mem_cons_of_mem _ hb))]

theorem addAdj_inv (processed acc : List Adj) (x : Adj) (h : ConsInv processed acc) :
    ConsInv (processed ++ [x]) (addAdj acc x) := by
  obtain ⟨h1, h2, h3, h4⟩ := h
  unfold addAdj
  by_cases hany : (acc.any fun b => keyOf b == keyOf x) = true
  · rw [if_pos hany]
    obtain ⟨b0, hb0mem, hb0key⟩ := List.any_eq_true.mp hany
    set upd : Adj → Adj := fun b =>
      if (keyOf b == keyOf x) = true then
        ⟨b.inventoryItemId, b.locationId, b.delta + x.delta⟩
      else b with hupd
    have hupd_pos : ∀ b, keyOf b = keyOf x →
        upd b = ⟨b.inventoryItemId, b.locationId, b.delta + x.delta⟩ := by
      intro b hb2
      simp only [hupd]
      rw [if_pos (beq_iff_eq.mpr hb2)]
    have hupd_neg : ∀ b, ¬ keyOf b = keyOf x → upd b = b := by
      intro b hb2
      simp only [hupd]
      rw [if_neg (fun hq => hb2 (beq_iff_eq.mp hq))]
    have hkey : ∀ b, keyOf (upd b) = keyOf b := by
      intro b
      by_cases hb2 : keyOf b = keyOf x
      · rw [hupd_pos b hb2]; rfl
      · rw [hupd_neg b hb2]
    have hfields : ∀ b, (upd b).inventoryItemId = b.inventoryItemId
        ∧ (upd b).locationId = b.locationId := by
      intro b
      by_cases hb2 : keyOf b = keyOf x
      · rw [hupd_pos b hb2]; exact ⟨rfl, rfl⟩
      · rw [hupd_neg b hb2]; exact ⟨rfl, rfl⟩
    refine ⟨?_, ?_, ?_, ?_⟩
    · rw [List.pairwise_map]
      exact h1.imp (fun {a b} hab => by rw [hkey a, hkey b]; exact hab)
    · intro e he
      rcases List.mem_map.mp he with ⟨b, hb, rfl⟩
      rw [hkey b, keySum_append, keySum_single]
      by_cases hbk : keyOf b = keyOf x
      · have hxb : (keyOf x == keyOf b) = true := beq_iff_eq.mpr hbk.symm
        rw [if_pos hxb, hupd_pos b hbk]
        show b.delta + x.delta = keySum processed (keyOf b) + x.delta
        rw [h2 b hb]
      · have hxb : ¬((keyOf x == keyOf b) = true) := by
          rw [beq_iff_eq]
          exact fun he2 => hbk he2.symm
        rw [if_neg hxb, add_zero, hupd_neg b hbk]
        exact h2 b hb
    · intro e he
      rcases List.mem_map.mp he with ⟨b, hb, rfl⟩
      obtain ⟨a, ha, hak, hai, hal⟩ := h3 b hb
      exact ⟨a, List.mem_append_left _ ha, hak.trans (hkey b).symm,
        hai.trans (hfields b).1.symm, hal.trans (hfields b).2.symm⟩
    · intro a ha
      rcases List.mem_append.mp ha with hmem | hmem
      · obtain ⟨e, he, hek⟩ := h4 a hmem
        exact ⟨upd e, List.mem_map_of_mem upd he, (hkey e).trans hek⟩
      · have hax : a = x := by simpa using hmem
        subst hax
        refine ⟨upd b0, List.mem_map_of_mem upd hb0mem, ?_⟩
        rw [hkey b0]
        exact beq_iff_eq.mp hb0key
  · rw [if_neg hany]
    have hnone : ∀ b ∈ acc, ¬((keyOf b == keyOf x) = true) := by
      intro b hb hk
      exact hany (List.any_eq_true.mpr ⟨b, hb, hk⟩)
    refine ⟨?_, ?_, ?_, ?_⟩
    · rw [List.pairwise_append]
      refine ⟨h1, List.pairwise_singleton _ _, ?_⟩
      intro a ha b hb
      have hbx : b = x := by simpa using hb
      subst hbx
      intro hkeq
      exact hnone a ha (beq_iff_eq.mpr hkeq)
    · intro e he
      rcases List.mem_append.mp he with hmem | hmem
      · rw [keySum_append, keySum_single]
        have hxk : ¬((keyOf x == keyOf e) = true) := by
          intro hk
          apply hnone e hmem
          rw [beq_iff_eq] at hk ⊢
          exact hk.symm
        rw [if_neg hxk, add_zero]
        exact h2 e hmem
      · have hex : e = x := by simpa using hmem
        subst hex
        rw [keySum_append, keySum_single, if_pos (by rw [beq_iff_eq])]
        have hzero : keySum processed (keyOf e) = 0 := by
          apply keySum_eq_zero
          intro a ha hk
          obtain ⟨e2, he2, he2k⟩ := h4 a ha
          apply hnone e2 he2
          rw [beq_iff_eq] at hk ⊢
          rw [he2k]
          exact hk
        rw [hzero, zero_add]
    · intro e he
      rcases List.mem_append.mp he with hmem | hmem
      · obtain ⟨a, ha, hk, hi, hl⟩ := h3 e hmem
        exact ⟨a, List.mem_append_left _ ha, hk, hi, hl⟩
      · have hex : e = x := by simpa using hmem
        subst hex
        exact ⟨e, List.mem_append_right _ (by simp), rfl, rfl, rfl⟩
    · intro a ha
      rcases List.mem_append.mp ha with hmem | hmem
      · obtain ⟨e, he, hek⟩ := h4 a hmem
        exact ⟨e, List.mem_append_left _ he, hek⟩
      · have hax : a = x := by simpa using hmem
        subst hax
        exact ⟨a, List.mem_append_right _ (by simp), rfl⟩

theorem foldl_addAdj_inv :
    ∀ (rest processed acc : List Adj), ConsInv processed acc →
      ConsInv (processed ++ rest) (List.foldl addAdj acc rest) := by
  intro rest
  induction rest with
  | nil =>
    intro processed acc h
    simpa using h
  | cons x rest2 ih =>
    intro processed acc h
    have h3 := ih (processed ++ [x]) (addAdj acc x) (addAdj_inv processed acc x h)
    rw [List.append_assoc] at h3
    simpa using h3

theorem consolidate_inv (l : List Adj) : ConsInv l (consolidate l) := by
  have hbase : ConsInv [] [] := by
    refine ⟨List.Pairwise.nil, ?_, ?_, ?_⟩
    · intro e he; cases he
    · intro e he; cases he
    · intro a ha; cases ha
  have h := foldl_addAdj_inv l [] [] hbase
  simpa [consolidate] using h

theorem buildQuantityUpdates_pairs (env : Env) (st : St) :
    ∀ (l : List Adj) (qus : List QuantityUpdate),
      buildQuantityUpdates env st l = some qus →
      qus.map (fun u => (u.inventoryItemId, u.locationId)) =
        l.map (fun e => (e.inventoryItemId, e.locationId)) := by
  intro l
  induction l with
  | nil =>
    intro qus h
    rw [← Option.some.inj h]
    rfl
  | cons a rest ih =>
    intro qus h
    unfold buildQuantityUpdates at h
    split at h
    · split at h
      · cases h
      · rename_i l2 hl2
        rw [← Option.some.inj h, List.map_cons, List.map_cons, ih l2 hl2]
    · cases h

/-- C5: within one order's processing, consolidation leaves at most one
entry per (inventoryItemId, locationId) pair, each entry's delta is the
sum of all individual deltas for that pair, every pair appearing in the
input is represented, and the submitted compare-and-set batch carries
exactly the consolidated (item, location) pairs.  The hypothesis states
that the `itemId + ":" + locationId` map key is unambiguous across the
order's adjustments, which holds for the remote API's id format. -/
theorem consolidation_one_entry_per_pair (adjs : List Adj)
    (hinj : ∀ a ∈ adjs, ∀ b ∈ adjs, keyOf a = keyOf b →
      a.inventoryItemId = b.inventoryItemId ∧ a.locationId = b.locationId) :
    ((consolidate adjs).Pairwise (fun a b =>
        ¬(a.inventoryItemId = b.inventoryItemId ∧ a.locationId = b.locationId)))
    ∧ (∀ e ∈ consolidate adjs, e.delta = netDelta adjs e.inventoryItemId e.locationId)
    ∧ (∀ a ∈ adjs, ∃ e ∈ consolidate adjs,
        e.inventoryItemId = a.inventoryItemId ∧ e.locationId = a.locationId)
    ∧ (∀ (env : Env) (st : St) (qus : List QuantityUpdate),
        buildQuantityUpdates env st (consolidate adjs) = some qus →
        qus.map (fun u => (u.inventoryItemId, u.locationId)) =
          (consolidate adjs).map (fun e => (e.inventoryItemId, e.locationId))) := by
  obtain ⟨h1, h2, h3, h4⟩ := consolidate_inv adjs
  refine ⟨?_, ?_, ?_, ?_⟩
  · refine h1.imp (fun {a b} hne hpair => hne ?_)
    unfold keyOf
    rw [hpair.1, hpair.2]
  · intro e he
    rw [h2 e he]
    obtain ⟨a0, ha0, ha0k, ha0i, ha0l⟩ := h3 e he
    have hcond : ∀ b ∈ adjs, (keyOf b == keyOf e) =
        (b.inventoryItemId == e.inventoryItemId && b.locationId == e.locationId) := by
      intro b hb
      by_cases hk : keyOf b = keyOf e
      · have hp := hinj b hb a0 ha0 (hk.trans ha0k.symm)
        have hbi : b.inventoryItemId = e.inventoryItemId := hp.1.trans ha0i
        have hbl : b.locationId = e.locationId := hp.2.trans ha0l
        simp [hk, hbi, hbl]
      · have hside : ¬(b.inventoryItemId = e.inventoryItemId ∧ b.locationId = e.locationId) := by
          intro hp
          apply hk
          unfold keyOf
          rw [hp.1, hp.2]
        by_cases hbi : b.inventoryItemId = e.inventoryItemId
        · have hbl : ¬ b.locationId = e.locationId := fun hl => hside ⟨hbi, hl⟩
          simp [hk, hbi, hbl]
        · rw [beq_eq_false_iff_ne.mpr hk, beq_eq_false_iff_ne.mpr hbi, Bool.false_and]
    unfold keySum netDelta
    rw [filter_ext _ _ adjs hcond]
  · intro a ha
    obtain ⟨e, he, hek⟩ := h4 a ha
    obtain ⟨a0, ha0, ha0k, ha0i, ha0l⟩ := h3 e he
    have hp := hinj a0 ha0 a ha (ha0k.trans hek)
    exact ⟨e, he, ha0i.symm.trans hp.1, ha0l.symm.trans hp.2⟩
  · exact fun env st => buildQuantityUpdates_pairs env st (consolidate adjs)

/-- Witness for C5: the two adjustments for ("I", "L") in `adjsW`
(deltas -2 and 5) consolidate into the single entry with delta 3. -/
theorem consolidation_one_entry_per_pair_witness :
    (Adj.mk "I" "L" 3).delta = netDelta adjsW "I" "L" :=
  (consolidation_one_entry_per_pair adjsW (by decide)).2.1 ⟨"I", "L", 3⟩ (by decide)

/-! ## C3 and C10: the ProcessedOrder marker -/

theorem applyQUs_processed :
    ∀ (qus : List QuantityUpdate) (st : St), (applyQUs st qus).processed = st.processed := by
  intro qus
  induction qus with
  | nil => intro st; rfl
  | cons u rest ih =>
    intro st
    show (applyQUs (st.setInv u.inventoryItemId u.locationId u.quantity) rest).processed
      = st.processed
    rw [ih]
    rfl

/-- The paid handler's body touches only inventory, never the marker
set: whatever early exit, caught failure, write, or Reconciler pass
happens, the processed-order list is exactly the one it was given. -/
theorem paidBody_processed (env : Env) (order : OrderPayload) (rules : List RuleRec)
    (st1 : St) : (paidBody env order rules st1).processed = st1.processed := by
  unfold paidBody
  repeat' split
  all_goals simp [calculateMultipackInventory_processed, applyQUs_processed]

/-- C3: idempotence per (shop, orderId).  If a ProcessedOrder marker
already exists the paid handler performs no state change at all, and
running the handler twice for the same order equals running it once:
the deltas are applied at most once. -/
theorem paid_handler_idempotent (env : Env) (shop : String) (order : OrderPayload)
    (rules : List RuleRec) (st : St) :
    ((shop, orderIdOf order) ∈ st.processed → paidAction env shop order rules st = st)
    ∧ paidAction env shop order rules (paidAction env shop order rules st) =
        paidAction env shop order rules st := by
  constructor
  · intro hmem
    unfold paidAction
    by_cases h0 : orderIdOf order = ""
    · rw [if_pos h0]
    · rw [if_neg h0, if_pos hmem]
  · by_cases h0 : orderIdOf order = ""
    · have h1 : paidAction env shop order rules st = st := by
        unfold paidAction
        rw [if_pos h0]
      rw [h1]
      exact h1
    · by_cases hmem : (shop, orderIdOf order) ∈ st.processed
      · have h1 : paidAction env shop order rules st = st := by
          unfold paidAction
          rw [if_neg h0, if_pos hmem]
        rw [h1]
        exact h1
      · have h1 : paidAction env shop order rules st =
            paidBody env order rules ⟨(shop, orderIdOf order) :: st.processed, st.inventory⟩ := by
          unfold paidAction
          rw [if_neg h0, if_neg hmem]
        rw [h1]
        have hmem2 : (shop, orderIdOf order) ∈
            (paidBody env order rules
              ⟨(shop, orderIdOf order) :: st.processed, st.inventory⟩).processed := by
          rw [paidBody_processed]
          exact List.mem_cons_self _ _
        unfold paidAction
        rw [if_neg h0, if_pos hmem2]

/-- Witness for C3: with the marker for ("s", "1") already present,
the paid handler leaves the state untouched. -/
theorem paid_handler_idempotent_witness :
    paidAction envAllFail "s" orderW1 [] stMark = stMark :=
  (paid_handler_idempotent envAllFail "s" orderW1 [] stMark).1 (by decide)

/-- C10: for a fresh order with a non-empty id, the marker is present
when the handler finishes regardless of what happens afterwards (it is
created before the line-item check, the location resolution and the
remote write, and never deleted), and an order with no line items
changes nothing but the marker — marker existence does not imply any
delta was applied. -/
theorem paid_marker_persists (env : Env) (shop : String) (order : OrderPayload)
    (rules : List RuleRec) (st : St) (h0 : orderIdOf order ≠ "")
    (h1 : (shop, orderIdOf order) ∉ st.processed) :
    (shop, orderIdOf order) ∈ (paidAction env shop order rules st).processed
    ∧ ((order.line_items).getD [] = [] →
        paidAction env shop order rules st =
          ⟨(shop, orderIdOf order) :: st.processed, st.inventory⟩) := by
  have heq : paidAction env shop order rules st =
      paidBody env order rules ⟨(shop, orderIdOf order) :: st.processed, st.inventory⟩ := by
    unfold paidAction
    rw [if_neg h0, if_neg h1]
  constructor
  · rw [heq, paidBody_processed]
    exact List.mem_cons_self _ _
  · intro hli
    rw [heq]
    cases hls : order.line_items with
    | none => simp [paidBody, hls]
    | some items =>
      cases items with
      | nil => simp [paidBody, hls]
      | cons it rest =>
        rw [hls] at hli
        simp at hli

/-- Witness for C10: a fresh order (id 2) against the all-failing
environment still ends with its marker recorded. -/
theorem paid_marker_persists_witness :
    ("s", "2") ∈ (paidAction envAllFail "s" orderW2 [] st0).processed :=
  (paid_marker_persists envAllFail "s" orderW2 [] st0 (by decide) (by decide)).1

end Moreless
